import Mathlib

/-!
Verification development for the leiogo crawling framework.

The Go sources are shallowly embedded: the dynamic `Dict` meta map
(`leiogo.Dict`, a `map[string]interface{}`) becomes an association list of
tagged values, Go errors become an inductive type distinguishing
`*DropTaskError` from other errors, and each middleware method becomes a pure
function returning its result together with the updated meta map and the
requests it yielded.  Go runtime panics of unchecked type assertions are
modelled with `Option`.
-/

namespace leiogo

/-- Tagged dynamic value stored in a meta `Dict` (`map[string]interface{}`). -/
inductive MetaVal where
  | int (n : Int)
  | str (s : String)
  | bool (b : Bool)
  deriving DecidableEq, Repr

/-- The meta map of a request or response, `leiogo.Dict`.  Modelled as an
association list; insertion conses, lookup takes the first binding. -/
def Dict := List (String × MetaVal)

instance : DecidableEq Dict := inferInstanceAs (DecidableEq (List (String × MetaVal)))

instance : Repr Dict := inferInstanceAs (Repr (List (String × MetaVal)))

/-- Lookup in a meta map, `req.Meta[key]` together with the `ok` flag:
`none` models `ok = false`. -/
def Dict.get (d : Dict) (k : String) : Option MetaVal :=
  (List.find? (fun p => p.1 == k) d).map Prod.snd

/-- Go map assignment `meta[key] = v`. -/
def Dict.set (d : Dict) (k : String) (v : MetaVal) : Dict :=
  (k, v) :: List.filter (fun p => ¬(p.1 == k)) d

/-- The empty meta map created by `leiogo.NewRequest` (`make(Dict)`). -/
def Dict.empty : Dict := []

/-- The Go type assertion `v.(int)`: `none` models the runtime panic on a
non-int value. -/
def MetaVal.asInt : MetaVal → Option Int
  | .int n => some n
  | _ => none

/-- The Go type assertion `v.(string)`. -/
def MetaVal.asStr : MetaVal → Option String
  | .str s => some s
  | _ => none

/-- The Go type assertion `v.(bool)`. -/
def MetaVal.asBool : MetaVal → Option Bool
  | .bool b => some b
  | _ => none

/-- A Go `error` value as it appears in `Response.Err` and in middleware
results: `nil` is `Option.none` around this type, a `*middleware.DropTaskError`
is `dropTask`, and every other error is `other`.  `Error()` returns the
message in both cases. -/
inductive GoErr where
  | dropTask (msg : String)
  | other (msg : String)
  deriving DecidableEq, Repr

/-- The `Error()` method of the embedded error values. -/
def GoErr.message : GoErr → String
  | .dropTask m => m
  | .other m => m

end leiogo

namespace middleware

open leiogo

/-! ## RetryMiddleware (src/middleware/itemPipeline.go, final variant)

`RetryMiddleware.isRetriable` mutates `req.Meta` and reports whether the
request should be re-yielded; `ProcessResponse` switches on the type of
`res.Err`.  The embedding returns the updated meta map explicitly, plus a
flag recording whether `m.NewRequest(req, nil, spider)` was invoked. -/

/-- Configuration of `RetryMiddleware`: `RetryEnabled` and `RetryTimes`
(Go `int`). -/
structure RetryMiddleware where
  RetryEnabled : Bool
  RetryTimes : Int
  deriving Repr

/-- Embedding of `RetryMiddleware.isRetriable`.  Returns `none` when the Go
code would panic (a `retry` meta entry that is not an int); otherwise the
boolean result together with the updated request meta.

```go
if m.RetryEnabled {
    if retry, ok := req.Meta["retry"]; ok && retry.(int) < m.RetryTimes {
        req.Meta["retry"] = retry.(int) + 1
        return true
    } else if !ok {
        req.Meta["retry"] = 1
        return true
    }
}
return false
``` -/
def RetryMiddleware.isRetriable (m : RetryMiddleware) (meta : Dict) :
    Option (Bool × Dict) :=
  if m.RetryEnabled then
    match Dict.get meta "retry" with
    | some v =>
      match v.asInt with
      | none => none
      | some r =>
        if r < m.RetryTimes then some (true, Dict.set meta "retry" (.int (r + 1)))
        else some (false, meta)
    | none => some (true, Dict.set meta "retry" (.int 1))
  else some (false, meta)

/-- Result of `RetryMiddleware.ProcessResponse`: the returned `error` value,
whether the request was re-yielded through the `Yielder` (with a nil parent),
and the request meta after the call. -/
structure RetryOutcome where
  result : Option GoErr
  reyielded : Bool
  meta : Dict
  deriving Repr

/-- Embedding of `RetryMiddleware.ProcessResponse` (the switch on
`res.Err.(type)`); `none` models a panic inside `isRetriable`.

```go
switch res.Err.(type) {
case nil:
    return nil
case *DropTaskError:
    return res.Err
default:
    if m.isRetriable(req) { ... m.NewRequest(req, nil, spider) ... }
    return &DropTaskError{Message: res.Err.Error()}
}
``` -/
def RetryMiddleware.ProcessResponse (m : RetryMiddleware) (resErr : Option GoErr)
    (reqMeta : Dict) : Option RetryOutcome :=
  match resErr with
  | none => some ⟨none, false, reqMeta⟩
  | some (.dropTask msg) => some ⟨some (.dropTask msg), false, reqMeta⟩
  | some (.other msg) =>
    match m.isRetriable reqMeta with
    | none => none
    | some (b, meta) => some ⟨some (.dropTask msg), b, meta⟩

/-! ## DepthMiddleware (src/middleware/itemPipeline.go, final variant) -/

/-- Configuration of `DepthMiddleware`: `DepthLimit` (Go `int`, `0` meaning
no limitation). -/
structure DepthMiddleware where
  DepthLimit : Int
  deriving Repr

/-- Embedding of `DepthMiddleware.ProcessResponse`: set `res.Meta["depth"]`
to `1` when the key is absent, otherwise leave the meta unchanged; the result
is always `nil`.

```go
if _, ok := res.Meta["depth"]; !ok {
    res.Meta["depth"] = 1
}
return nil
``` -/
def DepthMiddleware.ProcessResponse (_ : DepthMiddleware) (resMeta : Dict) : Dict :=
  match Dict.get resMeta "depth" with
  | some _ => resMeta
  | none => Dict.set resMeta "depth" (.int 1)

/-- Embedding of `DepthMiddleware.ProcessNewRequest`: `none` models the panic
of the unchecked assertion `parentRes.Meta["depth"].(int)`; otherwise the
returned error (a drop when the limit is exceeded) and the new request meta.

```go
depth := parentRes.Meta["depth"].(int) + 1
req.Meta["depth"] = depth
if m.DepthLimit != 0 && depth > m.DepthLimit {
    return &DropTaskError{...}
}
return nil
``` -/
def DepthMiddleware.ProcessNewRequest (m : DepthMiddleware) (reqMeta parentMeta : Dict) :
    Option (Option GoErr × Dict) :=
  match (Dict.get parentMeta "depth").bind MetaVal.asInt with
  | none => none
  | some d =>
    let depth := d + 1
    let reqMeta := Dict.set reqMeta "depth" (.int depth)
    if m.DepthLimit ≠ 0 ∧ depth > m.DepthLimit then
      some (some (.dropTask "Depth beyond the max depth"), reqMeta)
    else
      some (none, reqMeta)

end middleware

namespace middleware

open leiogo

/-- Well-formedness of the `retry` meta entry: absent, or an int (the only
writers of this key in the framework store ints). -/
def retryKeyOK (meta : Dict) : Prop :=
  Dict.get meta "retry" = none ∨ ∃ n : Int, Dict.get meta "retry" = some (.int n)

/-- Under `retryKeyOK`, `isRetriable` never panics. -/
theorem isRetriable_total (m : RetryMiddleware) (meta : Dict) (h : retryKeyOK meta) :
    ∃ b d, m.isRetriable meta = some (b, d) := by
  rcases h with h | ⟨n, h⟩ <;>
    simp only [RetryMiddleware.isRetriable, h, MetaVal.asInt] <;>
    split <;> first
      | exact ⟨true, _, rfl⟩
      | (rename_i hr; split
         · exact ⟨true, _, rfl⟩
         · exact ⟨false, _, rfl⟩)
      | exact ⟨false, _, rfl⟩

end middleware

/-- C1: with retry enabled and `retry_times = 0`, a response whose error is a
plain (non-drop) error on a request without a `retry` meta entry makes
`RetryMiddleware.ProcessResponse` set `meta.retry` to `1` and re-yield the
request even though the new value `1` is not at most `retry_times = 0`: the
start URL is enqueued (and hence processed) a second time, contradicting the
claim that it is processed exactly once.  The `else if !ok` branch of
`isRetriable` returns `true` without comparing against `RetryTimes`.  The
second attempt (meta.retry now 1, not less than 0) is not re-yielded, so the
start URL is downloaded exactly twice. -/
theorem C1_retry_times_zero_eval :
    middleware.RetryMiddleware.ProcessResponse ⟨true, 0⟩
        (some (.other "connection refused")) leiogo.Dict.empty
      = some ⟨some (.dropTask "connection refused"), true, [("retry", .int 1)]⟩
    ∧ ¬ ((1 : Int) ≤ 0)
    ∧ middleware.RetryMiddleware.ProcessResponse ⟨true, 0⟩
        (some (.other "connection refused")) [("retry", .int 1)]
      = some ⟨some (.dropTask "connection refused"), false, [("retry", .int 1)]⟩ := by
  exact ⟨rfl, by norm_num, rfl⟩

/-- C5: `RetryMiddleware.ProcessResponse` distinguishes the three cases of
`response.err` exactly: a nil error returns ok (nil) touching nothing; a
`*DropTaskError` is returned as is and the request is never re-yielded; any
other error takes the retry path (`isRetriable` decides the re-yield and
updates `meta.retry`) and the call returns a `*DropTaskError` carrying the
original error message. -/
theorem C5_retry_err_cases (m : middleware.RetryMiddleware) (meta : leiogo.Dict)
    (h : middleware.retryKeyOK meta) :
    m.ProcessResponse none meta = some ⟨none, false, meta⟩
    ∧ (∀ msg, m.ProcessResponse (some (.dropTask msg)) meta
        = some ⟨some (.dropTask msg), false, meta⟩)
    ∧ (∀ msg, ∃ b d, m.isRetriable meta = some (b, d)
        ∧ m.ProcessResponse (some (.other msg)) meta = some ⟨some (.dropTask msg), b, d⟩) := by
  refine ⟨rfl, fun msg => rfl, fun msg => ?_⟩
  obtain ⟨b, d, hbd⟩ := middleware.isRetriable_total m meta h
  exact ⟨b, d, hbd, by simp [middleware.RetryMiddleware.ProcessResponse, hbd]⟩

/-- Witness for C5 at a concrete input: retry enabled, three retries allowed,
a request already retried once. -/
theorem C5_retry_err_cases_witness :
    middleware.RetryMiddleware.ProcessResponse ⟨true, 3⟩ none [("retry", .int 1)]
      = some ⟨none, false, [("retry", .int 1)]⟩
    ∧ middleware.RetryMiddleware.ProcessResponse ⟨true, 3⟩ (some (.dropTask "done"))
        [("retry", .int 1)]
      = some ⟨some (.dropTask "done"), false, [("retry", .int 1)]⟩ := by
  obtain ⟨h1, h2, _⟩ := C5_retry_err_cases ⟨true, 3⟩ [("retry", .int 1)] (.inr ⟨1, rfl⟩)
  exact ⟨h1, h2 "done"⟩

/-- C6: `DepthMiddleware.ProcessResponse` sets `meta.depth` to `1` exactly
when the response meta has no `depth` key and leaves the meta unchanged
otherwise; `ProcessNewRequest` stores the parent depth plus one in the child
request meta and returns a drop exactly when `0 < DepthLimit` and the new
depth exceeds it (`DepthLimit = 0` meaning unlimited; the configuration is a
non-negative limit). -/
theorem C6_depth (m : middleware.DepthMiddleware) (hm : 0 ≤ m.DepthLimit)
    (resMeta reqMeta parentMeta : leiogo.Dict) :
    (leiogo.Dict.get resMeta "depth" = none →
      m.ProcessResponse resMeta = leiogo.Dict.set resMeta "depth" (.int 1))
    ∧ (∀ v, leiogo.Dict.get resMeta "depth" = some v → m.ProcessResponse resMeta = resMeta)
    ∧ (∀ d : Int, leiogo.Dict.get parentMeta "depth" = some (.int d) →
        ∃ r, m.ProcessNewRequest reqMeta parentMeta
            = some (r, leiogo.Dict.set reqMeta "depth" (.int (d + 1)))
          ∧ ((∃ msg, r = some (.dropTask msg)) ↔ 0 < m.DepthLimit ∧ d + 1 > m.DepthLimit)) := by
  refine ⟨?_, ?_, ?_⟩
  · intro h
    simp [middleware.DepthMiddleware.ProcessResponse, h]
  · intro v h
    simp [middleware.DepthMiddleware.ProcessResponse, h]
  · intro d h
    simp only [middleware.DepthMiddleware.ProcessNewRequest, h, Option.bind,
      leiogo.MetaVal.asInt]
    split
    · rename_i hcond
      refine ⟨some (.dropTask "Depth beyond the max depth"), rfl, ?_⟩
      exact iff_of_true ⟨"Depth beyond the max depth", rfl⟩
        ⟨lt_of_le_of_ne hm (Ne.symm hcond.1), hcond.2⟩
    · rename_i hcond
      refine ⟨none, rfl, ?_⟩
      constructor
      · rintro ⟨msg, hmsg⟩
        exact absurd hmsg (by simp)
      · rintro ⟨h1, h2⟩
        exact absurd ⟨ne_of_gt h1, h2⟩ hcond

/-- Witness for C6 at a concrete input: depth limit 2, a parent at depth 2,
so the child at depth 3 is dropped. -/
theorem C6_depth_witness :
    ∃ r, middleware.DepthMiddleware.ProcessNewRequest ⟨2⟩ [] [("depth", .int 2)]
        = some (r, [("depth", .int 3)])
      ∧ ((∃ msg, r = some (.dropTask msg)) ↔ (0 : Int) < 2 ∧ (2 : Int) + 1 > 2) :=
  (C6_depth ⟨2⟩ (by norm_num) [] [] [("depth", .int 2)]).2.2 2 rfl

namespace crawler

open leiogo

/-! ## Crawler engine (src/unnamed/part_002, final variant; src/crawler/crawler.go)

`Crawler.crawl` drives one request through the middleware chains, the
downloader and the parser, mutating `StatusInfo` along the way.  The chains
are embedded by the result each middleware returns for this particular
request/response, listed in registration order (`handleErr` stops the task on
the first non-nil result, whether it is a drop or a plain error). -/

/-- The `StatusInfo` counters (`src/crawler/util.go`).  Counters are Go ints
that are only ever incremented, embedded as `Nat`. -/
structure StatusInfo where
  Pages : Nat := 0
  Crawled : Nat := 0
  Succeed : Nat := 0
  Items : Nat := 0
  Files : Nat := 0
  Interrupted : Bool := false
  Reason : String := "Jobs completed"
  deriving Repr, DecidableEq

/-- Embedding of `StatusInfo.Interrupt`. -/
def StatusInfo.Interrupt (s : StatusInfo) : StatusInfo :=
  { s with Interrupted := true, Reason := "User interrupted" }

/-- The first non-nil result of a middleware chain: `handleErr` returns false
and `crawl` returns as soon as one middleware yields a non-nil error. -/
def firstErr : List (Option GoErr) → Option GoErr
  | [] => none
  | none :: rest => firstErr rest
  | some e :: _ => some e

/-- The middleware outcomes observed while `crawl` processes one request:
the `ProcessRequest` results of the download middlewares, whether the request
is a file request (`req.Meta["__type__"] == "file"`) whose response error is a
`*DropTaskError`, and the `ProcessResponse` results of the download and
spider middlewares. -/
structure CrawlObservation where
  preResults : List (Option GoErr)
  isFileReq : Bool
  resErrIsDrop : Bool
  dlPostResults : List (Option GoErr)
  spPostResults : List (Option GoErr)

/-- Embedding of `Crawler.crawl` (the final variant, with the parser-table
lookup), tracking its `StatusInfo` mutations and whether the parser was
invoked.

```go
for _, m := range c.DownloadMiddlewares { if !handleErr(m.ProcessRequest(...)) return }
res := c.Downloader.Download(req, spider)
c.StatusInfo.AddCrawled()
if typeName, ok := req.Meta["__type__"]; ok && typeName.(string) == "file" {
    switch res.Err.(type) { case *middleware.DropTaskError: c.StatusInfo.AddFiles() ... }
}
for _, m := range c.DownloadMiddlewares { if !handleErr(m.ProcessResponse(...)) return }
for _, m := range c.SpiderMiddlewares { if !handleErr(m.ProcessResponse(...)) return }
if parser, ok := c.Parsers[req.ParserName]; !ok {
    c.Logger.Error(spider.Name, "No parser named %s", req.ParserName)
} else {
    parser(res, req, spider)
}
c.StatusInfo.AddSucceed(req)
``` -/
def crawl (obs : CrawlObservation) (parserTable : List String) (parserName : String)
    (st : StatusInfo) : StatusInfo × Bool :=
  if (firstErr obs.preResults).isSome then (st, false)
  else
    let st := { st with Crawled := st.Crawled + 1 }
    let st := if obs.isFileReq && obs.resErrIsDrop then { st with Files := st.Files + 1 } else st
    if (firstErr obs.dlPostResults).isSome then (st, false)
    else if (firstErr obs.spPostResults).isSome then (st, false)
    else
      ({ st with Succeed := st.Succeed + 1 }, parserTable.contains parserName)

end crawler

namespace crawler

/-- A request as held by the engine queue (`leiogo.Request` with its URL,
parser name and meta map). -/
structure Request where
  URL : String
  Meta : leiogo.Dict
  ParserName : String
  deriving Repr, DecidableEq

/-- The engine state touched by `addRequest`, `NewItem`, the interrupt
handler and the per-request goroutines: the `StatusInfo`, the
`ConcurrentCount` in-flight counter (number of `Add` calls minus `Done`
calls) and the pending request queue. -/
structure Engine where
  status : StatusInfo
  count : Nat
  queue : List Request
  deriving Repr, DecidableEq

/-- Embedding of `Crawler.addRequest` (src/unnamed/part_002):

```go
if !c.StatusInfo.IsInterrupt() {
    c.StatusInfo.AddPage()
    c.count.Add()
    go func() { c.requests <- req }()
}
``` -/
def Engine.addRequest (e : Engine) (req : Request) : Engine :=
  if e.status.Interrupted then e
  else { e with status := { e.status with Pages := e.status.Pages + 1 },
                count := e.count + 1,
                queue := e.queue ++ [req] }

/-- The `UserInterrupt` listener calling `StatusInfo.Interrupt`. -/
def Engine.interrupt (e : Engine) : Engine :=
  { e with status := e.status.Interrupt }

/-- `Crawler.NewItem` before spawning the pipeline goroutine:
`StatusInfo.Items++` and `count.Add()` (not guarded by the interrupt flag). -/
def Engine.newItem (e : Engine) : Engine :=
  { e with status := { e.status with Items := e.status.Items + 1 }, count := e.count + 1 }

/-- A request or pipeline goroutine finishing: `count.Done()`. -/
def Engine.done (e : Engine) : Engine :=
  { e with count := e.count - 1 }

/-- One observable operation on the engine state. -/
inductive EngineOp where
  | interrupt
  | addRequest (req : Request)
  | newItem
  | done
  deriving Repr, DecidableEq

/-- Apply one operation to the engine state. -/
def EngineOp.apply (e : Engine) : EngineOp → Engine
  | .interrupt => e.interrupt
  | .addRequest req => e.addRequest req
  | .newItem => e.newItem
  | .done => e.done

/-- Run a sequence of engine operations. -/
def Engine.run (e : Engine) (ops : List EngineOp) : Engine :=
  ops.foldl EngineOp.apply e

/-- The interrupted flag is never reset by any engine operation. -/
theorem interrupted_run_mono (e : Engine) (ops : List EngineOp)
    (he : e.status.Interrupted = true) : (e.run ops).status.Interrupted = true := by
  induction ops generalizing e with
  | nil => exact he
  | cons op rest ih =>
    refine ih _ ?_
    cases op with
    | interrupt => rfl
    | addRequest req =>
      show (e.addRequest req).status.Interrupted = true
      simp [Engine.addRequest, he]
    | newItem => exact he
    | done => exact he

end crawler

/-- C4: once `status.interrupt()` has set the interrupted flag, every
subsequent `addRequest` — after any interleaving of further engine
operations — is a complete no-op: it does not increment `status.pages`, does
not call `counter.add` (the in-flight count is unchanged) and does not
enqueue the request, so no `yield_request` call increases the in-flight
count after interruption. -/
theorem C4_interrupt_refuses (e : crawler.Engine) (ops : List crawler.EngineOp)
    (req : crawler.Request) :
    ((e.interrupt.run ops).status.Interrupted = true)
    ∧ e.interrupt.run (ops ++ [.addRequest req]) = e.interrupt.run ops := by
  have hmono := crawler.interrupted_run_mono e.interrupt ops rfl
  refine ⟨hmono, ?_⟩
  have happ : e.interrupt.run (ops ++ [.addRequest req])
      = crawler.EngineOp.apply (e.interrupt.run ops) (.addRequest req) := by
    simp [crawler.Engine.run, List.foldl_append]
  rw [happ]
  simp [crawler.EngineOp.apply, crawler.Engine.addRequest, hmono]

namespace crawler

/-! ## Counter transition system (C8)

Every mutation of the `StatusInfo` counters in the engine happens at one of
the following code points, each holding the status mutex, so a run is an
interleaving of these atomic operations.  Besides the counters, the state
tracks how many admitted requests are before (`queued`) and after
(`downloaded`) their `Downloader` call, mirroring the phases of
`Crawler.crawl`. -/

/-- Abstract engine state for the counter invariants. -/
structure EState where
  pages : Nat
  crawled : Nat
  succeed : Nat
  items : Nat
  files : Nat
  queued : Nat
  downloaded : Nat
  interrupted : Bool
  deriving Repr, DecidableEq

/-- The initial state of a run. -/
def EState.init : EState := ⟨0, 0, 0, 0, 0, 0, 0, false⟩

/-- One atomic counter mutation of the engine.
  * `enqueue` — `addRequest`: refused when interrupted, else `AddPage` and
    admission of a task;
  * `interrupt` — `StatusInfo.Interrupt`;
  * `dropPre` — a queued task returns early from a `ProcessRequest`
    middleware (drop or error) before the download;
  * `download` — the `Downloader` returns: `AddCrawled`, and `AddFiles` for a
    completed file request (the argument);
  * `dropPost` — a downloaded task returns early from a response middleware;
  * `finish` — a downloaded task reaches the parser stage: `AddSucceed`;
  * `addItem` — `NewItem`: `AddItem`. -/
inductive EOp where
  | enqueue
  | interrupt
  | dropPre
  | download (file : Bool)
  | dropPost
  | finish
  | addItem
  deriving Repr, DecidableEq

/-- One step of the counter system; `none` when the operation is not enabled
(there is no task in the corresponding phase). -/
def estep (s : EState) : EOp → Option EState
  | .enqueue =>
    if s.interrupted then some s
    else some { s with pages := s.pages + 1, queued := s.queued + 1 }
  | .interrupt => some { s with interrupted := true }
  | .dropPre =>
    match s.queued with
    | 0 => none
    | q + 1 => some { s with queued := q }
  | .download file =>
    match s.queued with
    | 0 => none
    | q + 1 => some { s with queued := q, downloaded := s.downloaded + 1,
                             crawled := s.crawled + 1,
                             files := s.files + (if file then 1 else 0) }
  | .dropPost =>
    match s.downloaded with
    | 0 => none
    | d + 1 => some { s with downloaded := d }
  | .finish =>
    match s.downloaded with
    | 0 => none
    | d + 1 => some { s with downloaded := d, succeed := s.succeed + 1 }
  | .addItem => some { s with items := s.items + 1 }

/-- The states reachable in some run of the engine. -/
inductive Reachable : EState → Prop where
  | init : Reachable EState.init
  | step {s : EState} (op : EOp) {s1 : EState} :
      Reachable s → estep s op = some s1 → Reachable s1

/-- The inductive invariant relating the counters to the task phases. -/
theorem reachable_invariant (s : EState) (hs : Reachable s) :
    s.crawled + s.queued ≤ s.pages ∧ s.succeed + s.downloaded ≤ s.crawled := by
  induction hs with
  | init => exact ⟨Nat.le_refl 0, Nat.le_refl 0⟩
  | @step s op s1 _ hstep ih =>
    have h1 := ih.1
    have h2 := ih.2
    cases op with
    | enqueue =>
      by_cases hi : s.interrupted = true <;>
        simp only [estep, hi, if_true, if_false, Option.some.injEq, Bool.false_eq_true,
          ite_false, ite_true] at hstep <;>
        subst hstep
      · exact ih
      · refine ⟨?_, ?_⟩ <;> simp <;> omega
    | interrupt =>
      simp only [estep, Option.some.injEq] at hstep; subst hstep
      refine ⟨?_, ?_⟩ <;> simp <;> omega
    | dropPre =>
      rcases hq : s.queued with _ | q <;>
        simp only [estep, hq, Option.some.injEq, reduceCtorEq] at hstep
      subst hstep
      refine ⟨?_, ?_⟩ <;> simp <;> omega
    | download file =>
      rcases hq : s.queued with _ | q <;>
        simp only [estep, hq, Option.some.injEq, reduceCtorEq] at hstep
      subst hstep
      refine ⟨?_, ?_⟩ <;> simp <;> omega
    | dropPost =>
      rcases hd : s.downloaded with _ | d <;>
        simp only [estep, hd, Option.some.injEq, reduceCtorEq] at hstep
      subst hstep
      refine ⟨?_, ?_⟩ <;> simp <;> omega
    | finish =>
      rcases hd : s.downloaded with _ | d <;>
        simp only [estep, hd, Option.some.injEq, reduceCtorEq] at hstep
      subst hstep
      refine ⟨?_, ?_⟩ <;> simp <;> omega
    | addItem =>
      simp only [estep, Option.some.injEq] at hstep; subst hstep
      refine ⟨?_, ?_⟩ <;> simp <;> omega

end crawler

/-- C8: in every reachable state of a run,
`status.pages ≥ status.crawled ≥ status.succeed ≥ 0`, and no operation ever
decreases any of the counters `pages`, `crawled`, `succeed`, `items`,
`files` (each counter is monotonically non-decreasing along every run). -/
theorem C8_status_invariant (s : crawler.EState) (hs : crawler.Reachable s)
    (op : crawler.EOp) (s1 : crawler.EState) (hstep : crawler.estep s op = some s1) :
    (0 ≤ s.succeed ∧ s.succeed ≤ s.crawled ∧ s.crawled ≤ s.pages)
    ∧ (s.pages ≤ s1.pages ∧ s.crawled ≤ s1.crawled ∧ s.succeed ≤ s1.succeed
        ∧ s.items ≤ s1.items ∧ s.files ≤ s1.files) := by
  have hinv := crawler.reachable_invariant s hs
  refine ⟨⟨Nat.zero_le _, by omega, by omega⟩, ?_⟩
  cases op with
  | enqueue =>
    by_cases hi : s.interrupted = true <;>
      simp only [crawler.estep, hi, Option.some.injEq, Bool.false_eq_true,
        ite_false, ite_true] at hstep <;>
      subst hstep <;>
      refine ⟨?_, ?_, ?_, ?_, ?_⟩ <;> simp
  | interrupt =>
    simp only [crawler.estep, Option.some.injEq] at hstep; subst hstep
    refine ⟨?_, ?_, ?_, ?_, ?_⟩ <;> simp
  | dropPre =>
    rcases hq : s.queued with _ | q <;>
      simp only [crawler.estep, hq, Option.some.injEq, reduceCtorEq] at hstep
    subst hstep
    refine ⟨?_, ?_, ?_, ?_, ?_⟩ <;> simp
  | download file =>
    rcases hq : s.queued with _ | q <;>
      simp only [crawler.estep, hq, Option.some.injEq, reduceCtorEq] at hstep
    subst hstep
    refine ⟨?_, ?_, ?_, ?_, ?_⟩ <;> simp
  | dropPost =>
    rcases hd : s.downloaded with _ | d <;>
      simp only [crawler.estep, hd, Option.some.injEq, reduceCtorEq] at hstep
    subst hstep
    refine ⟨?_, ?_, ?_, ?_, ?_⟩ <;> simp
  | finish =>
    rcases hd : s.downloaded with _ | d <;>
      simp only [crawler.estep, hd, Option.some.injEq, reduceCtorEq] at hstep
    subst hstep
    refine ⟨?_, ?_, ?_, ?_, ?_⟩ <;> simp
  | addItem =>
    simp only [crawler.estep, Option.some.injEq] at hstep; subst hstep
    refine ⟨?_, ?_, ?_, ?_, ?_⟩ <;> simp

/-- Witness for C8 at a concrete reachable state: two admissions followed by
one download, then a further `finish` step. -/
theorem C8_status_invariant_witness :
    ((0 ≤ 0 ∧ 0 ≤ 1 ∧ 1 ≤ 2)
      ∧ (2 ≤ 2 ∧ 1 ≤ 1 ∧ 0 ≤ 1 ∧ 0 ≤ 0 ∧ 0 ≤ 0)) := by
  have h1 : crawler.Reachable ⟨1, 0, 0, 0, 0, 1, 0, false⟩ :=
    .step .enqueue .init (by decide)
  have h2 : crawler.Reachable ⟨2, 0, 0, 0, 0, 2, 0, false⟩ :=
    .step .enqueue h1 (by decide)
  have h3 : crawler.Reachable ⟨2, 1, 0, 0, 0, 1, 1, false⟩ :=
    .step (.download false) h2 (by decide)
  exact C8_status_invariant ⟨2, 1, 0, 0, 0, 1, 1, false⟩ h3 .finish
    ⟨2, 1, 1, 0, 0, 1, 0, false⟩ (by decide)

namespace middleware

open leiogo

/-- Embedding of `CacheMiddleware.ProcessRequest` over the cache set (the
process-wide set of already-seen URLs): drop the task when the URL is cached.

```go
if _, ok := m.Cache[req.URL]; ok {
    return &DropTaskError{Message: "URL already parsed"}
}
return nil
``` -/
def CacheMiddleware.ProcessRequest (cache : List String) (url : String) : Option GoErr :=
  if url ∈ cache then some (.dropTask "URL already parsed") else none

/-- Embedding of `CacheMiddleware.ProcessResponse`: insert the URL into the
cache set (`m.Cache[req.URL] = struct{}{}`); the result is always nil. -/
def CacheMiddleware.ProcessResponse (cache : List String) (url : String) : List String :=
  url :: cache

end middleware

namespace crawler

/-! ## Cache deduplication under concurrency (C7)

`Crawler.Crawl` runs up to `ConcurrentRequests` goroutines, each executing
`crawl` on its own request.  With the cache middleware registered, the steps
of one goroutine that matter for deduplication are (a) the cache check in
`ProcessRequest` (under `RLock`) and (b) the downloader call followed by the
cache insertion in `ProcessResponse` (under `Lock`).  A run is an
interleaving of these atomic steps of the in-flight tasks. -/

/-- Phase of one in-flight crawl goroutine: before the cache check, past the
check and about to download, finished (downloaded and inserted), or dropped
by the cache check. -/
inductive TaskPhase where
  | start
  | ready
  | finished
  | dropped
  deriving Repr, DecidableEq

/-- One in-flight request task. -/
structure CacheTask where
  url : String
  phase : TaskPhase
  deriving Repr, DecidableEq

/-- Shared state of a run: the cache set, the tasks, and the log of
Downloader invocations. -/
structure CacheRun where
  cache : List String
  tasks : List CacheTask
  downloads : List String
  deriving Repr, DecidableEq

/-- Scheduler step: run the next atomic step of task `i`.  In phase `start`
the task executes `CacheMiddleware.ProcessRequest` (drop or advance); in
phase `ready` it invokes the Downloader and then runs the response chain,
whose cache middleware inserts the URL (`ProcessResponse`). -/
def cstep (s : CacheRun) (i : Nat) : CacheRun :=
  match s.tasks.get? i with
  | none => s
  | some t =>
    match t.phase with
    | .start =>
      match middleware.CacheMiddleware.ProcessRequest s.cache t.url with
      | some _ => { s with tasks := s.tasks.set i { t with phase := .dropped } }
      | none => { s with tasks := s.tasks.set i { t with phase := .ready } }
    | .ready =>
      { s with downloads := s.downloads ++ [t.url],
               cache := middleware.CacheMiddleware.ProcessResponse s.cache t.url,
               tasks := s.tasks.set i { t with phase := .finished } }
    | .finished => s
    | .dropped => s

/-- Run a schedule (a list of task indices) from a state. -/
def crun (s : CacheRun) (sched : List Nat) : CacheRun :=
  sched.foldl cstep s

/-- Serialized processing of a list of requests for the same engine: each
request runs its cache check and then, if not dropped, its download and
response chain to completion before the next request starts (the execution
order forced by `concurrent_requests = 1`).  Returns the final cache and the
Downloader invocation log. -/
def seqCrawl (cache : List String) (downloads : List String) :
    List String → List String × List String
  | [] => (cache, downloads)
  | url :: rest =>
    match middleware.CacheMiddleware.ProcessRequest cache url with
    | some _ => seqCrawl cache downloads rest
    | none => seqCrawl (middleware.CacheMiddleware.ProcessResponse cache url)
        (downloads ++ [url]) rest

/-- In a serialized run, a URL is downloaded at most once more than it
already was, and not at all if it is already cached. -/
theorem seqCrawl_count (u : String) (urls : List String) :
    ∀ cache downloads,
      List.count u (seqCrawl cache downloads urls).2
        ≤ List.count u downloads + (if u ∈ cache then 0 else 1) := by
  induction urls with
  | nil =>
    intro cache downloads
    simp only [seqCrawl]
    exact Nat.le_add_right _ _
  | cons url rest ih =>
    intro cache downloads
    by_cases hc : url ∈ cache
    · simp only [seqCrawl, middleware.CacheMiddleware.ProcessRequest, hc, if_true]
      exact ih cache downloads
    · simp only [seqCrawl, middleware.CacheMiddleware.ProcessRequest, hc, if_false,
        middleware.CacheMiddleware.ProcessResponse]
      have h := ih (url :: cache) (downloads ++ [url])
      by_cases huu : u = url
      · subst huu
        have hif : (if u ∈ u :: cache then (0 : Nat) else 1) = 0 := by simp
        have hcnt : List.count u (downloads ++ [u]) = List.count u downloads + 1 := by
          simp [List.count_append]
        rw [hif, hcnt] at h
        simpa [hc] using h
      · have hif : (if u ∈ url :: cache then (0 : Nat) else 1)
            = (if u ∈ cache then 0 else 1) := by
          by_cases hm : u ∈ cache <;> simp [List.mem_cons, huu, hm]
        have hz : List.count u [url] = 0 :=
          List.count_eq_zero_of_not_mem (by simp [huu])
        have hcnt : List.count u (downloads ++ [url]) = List.count u downloads := by
          rw [List.count_append, hz, Nat.add_zero]
        rw [hif, hcnt] at h
        exact h

end crawler

/-- C7 counterexample: two concurrently in-flight tasks for the same URL can
both pass the cache check before either inserts the URL (the insertion only
happens in `ProcessResponse`, after the download), so the interleaving
t0-check, t1-check, t0-download, t1-download invokes the Downloader twice for
one URL during one crawl — more than the at-most-one the claim states. -/
theorem C7_counterexample :
    (crawler.crun ⟨[], [⟨"http://a/", .start⟩, ⟨"http://a/", .start⟩], []⟩ [0, 1, 0, 1]).downloads
      = ["http://a/", "http://a/"]
    ∧ ¬ List.count "http://a/"
        (crawler.crun ⟨[], [⟨"http://a/", .start⟩, ⟨"http://a/", .start⟩], []⟩
          [0, 1, 0, 1]).downloads ≤ 1 := by
  constructor
  · rfl
  · decide

/-- C7 amended: with the Cache middleware registered, enqueueing the same URL
any number of times produces at most one Downloader invocation for that URL
when requests are processed serially (each request finishes its response
chain, which inserts the URL into the cache, before the next request's cache
check runs — the order forced by `concurrent_requests = 1`). -/
theorem C7_cache_amended (urls : List String) (u : String) :
    List.count u (crawler.seqCrawl [] [] urls).2 ≤ 1 := by
  have h := crawler.seqCrawl_count u urls [] []
  simpa using h

namespace leiogo

/-! ## Reference aliasing of meta maps (C9)

A Go map value is a reference; `NewResponse` copies `req.Meta` into the
response by reference, not by value.  The embedding makes the reference
explicit: a heap maps reference identifiers to `Dict` values, and requests
and responses hold a `MetaRef` identifier. -/

/-- The store of live meta maps, indexed by reference identifier. -/
def Heap := Nat → Dict

/-- Write a key through a meta reference: mutating the shared map object. -/
def Heap.write (h : Heap) (r : Nat) (k : String) (v : MetaVal) : Heap :=
  fun i => if i = r then Dict.set (h i) k v else h i

/-- A `leiogo.Request` with its meta map held by reference. -/
structure Request where
  URL : String
  MetaRef : Nat
  ParserName : String

/-- A `leiogo.Response`; `Meta` is likewise a reference into the heap. -/
structure Response where
  Err : Option GoErr
  StatusCode : Int
  Body : List UInt8
  MetaRef : Nat
  URL : String

/-- Embedding of `leiogo.NewResponse` (src/spider.go, final variant):

```go
return &Response{ URL: req.URL, Meta: req.Meta }
``` -/
def NewResponse (req : Request) : Response :=
  { Err := none, StatusCode := 0, Body := [], MetaRef := req.MetaRef, URL := req.URL }

end leiogo

namespace middleware

open leiogo

/-- Outcome of `DefaultDownloader.getResponse` (the HTTP transport): either
an error, or a raw response with a status code, a body, and a possible error
from reading the body (`ioutil.ReadAll`). -/
inductive FetchOutcome where
  | fail (msg : String)
  | page (status : Int) (body : List UInt8) (readErr : Option String)

/-- The external collaborators of `DefaultDownloader`: the HTTP transport,
the `FileWriter.WriteFile` result (a drop-kind error on success), and the
phantomjs subprocess (`exec.Command(...).Output()`). -/
structure DownloaderWorld where
  fetch : Request → FetchOutcome
  write : Request → Option GoErr
  exec : Request → Except String (List UInt8)

/-- Embedding of `DefaultDownloader.httpDownload`: a transport error goes to
`res.Err`; otherwise the status code, the body, and the read error are
copied into the response. -/
def DefaultDownloader.httpDownload (w : DownloaderWorld) (req : Request)
    (res : Response) : Response :=
  match w.fetch req with
  | .fail msg => { res with Err := some (.other msg) }
  | .page status body readErr =>
    { res with StatusCode := status, Body := body, Err := readErr.map GoErr.other }

/-- Embedding of `DefaultDownloader.fileDownload`: on a transport error set
`res.Err`; otherwise set the status code and store the `WriteFile` result in
`res.Err` (a `*DropTaskError` on a completed download); the body is consumed
by the writer and stays empty. -/
def DefaultDownloader.fileDownload (w : DownloaderWorld) (req : Request)
    (res : Response) : Response :=
  match w.fetch req with
  | .fail msg => { res with Err := some (.other msg) }
  | .page status _ _ => { res with StatusCode := status, Err := w.write req }

/-- Embedding of `DefaultDownloader.phantomjs`: an exec error goes to
`res.Err`; empty output becomes the "Phantomjs Error"; otherwise the output
is the body and the status code is set to 200. -/
def DefaultDownloader.phantomKit (w : DownloaderWorld) (req : Request)
    (res : Response) : Response :=
  match w.exec req with
  | .error msg => { res with Err := some (.other msg) }
  | .ok [] => { res with Err := some (.other "Phantomjs Error") }
  | .ok (b :: rest) => { res with Body := b :: rest, StatusCode := 200 }

/-- Embedding of `DefaultDownloader.Download` (src/middleware/downloader.go):
build the response with `NewResponse`, then branch on the request meta.
`none` models the panic of the single-value assertion `enable.(bool)` when a
`phantomjs` entry holds a non-bool; the `__type__` check uses the two-value
assertion and cannot panic.

```go
leioRes = leiogo.NewResponse(req)
if enable, ok := req.Meta["phantomjs"]; ok && enable.(bool) {
    d.phantomjs(req, leioRes, spider)
} else if typename, ok := req.Meta["__type__"].(string); ok && typename == "file" {
    d.fileDownload(req, leioRes, spider)
} else {
    d.httpDownload(req, leioRes, spider)
}
``` -/
def DefaultDownloader.Download (h : Heap) (w : DownloaderWorld) (req : Request) :
    Option Response :=
  let res := NewResponse req
  let rest :=
    match Dict.get (h req.MetaRef) "__type__" with
    | some (.str "file") => DefaultDownloader.fileDownload w req res
    | _ => DefaultDownloader.httpDownload w req res
  match Dict.get (h req.MetaRef) "phantomjs" with
  | some v =>
    match v.asBool with
    | none => none
    | some true => some (DefaultDownloader.phantomKit w req res)
    | some false => some rest
  | none => some rest

/-- The http branch never touches the URL or the meta reference. -/
theorem httpDownload_pres (w : DownloaderWorld) (req : Request) (res : Response) :
    (DefaultDownloader.httpDownload w req res).URL = res.URL
    ∧ (DefaultDownloader.httpDownload w req res).MetaRef = res.MetaRef := by
  unfold DefaultDownloader.httpDownload
  split <;> exact ⟨rfl, rfl⟩

/-- The file branch never touches the URL or the meta reference. -/
theorem fileDownload_pres (w : DownloaderWorld) (req : Request) (res : Response) :
    (DefaultDownloader.fileDownload w req res).URL = res.URL
    ∧ (DefaultDownloader.fileDownload w req res).MetaRef = res.MetaRef := by
  unfold DefaultDownloader.fileDownload
  split <;> exact ⟨rfl, rfl⟩

/-- The phantomjs branch never touches the URL or the meta reference. -/
theorem phantomKit_pres (w : DownloaderWorld) (req : Request) (res : Response) :
    (DefaultDownloader.phantomKit w req res).URL = res.URL
    ∧ (DefaultDownloader.phantomKit w req res).MetaRef = res.MetaRef := by
  unfold DefaultDownloader.phantomKit
  split <;> exact ⟨rfl, rfl⟩

end middleware

/-- C9: every response produced by `DefaultDownloader.Download` carries the
request's URL, and its meta is the very same map object as the request's
meta (the same heap reference), so a write through the response meta is read
back through the request meta and vice versa. -/
theorem C9_download_alias (h : leiogo.Heap) (w : middleware.DownloaderWorld)
    (req : leiogo.Request) (res : leiogo.Response)
    (hres : middleware.DefaultDownloader.Download h w req = some res)
    (h2 : leiogo.Heap) (k : String) (v : leiogo.MetaVal) :
    res.URL = req.URL ∧ res.MetaRef = req.MetaRef
    ∧ leiogo.Dict.get (leiogo.Heap.write h2 res.MetaRef k v req.MetaRef) k = some v
    ∧ leiogo.Dict.get (leiogo.Heap.write h2 req.MetaRef k v res.MetaRef) k = some v := by
  have hpres : res.URL = req.URL ∧ res.MetaRef = req.MetaRef := by
    unfold middleware.DefaultDownloader.Download at hres
    dsimp only at hres
    repeat' split at hres
    all_goals
      first
        | exact Option.noConfusion hres
        | (injection hres with hres1
           rw [← hres1]
           first
             | exact middleware.phantomKit_pres w req (leiogo.NewResponse req)
             | exact middleware.fileDownload_pres w req (leiogo.NewResponse req)
             | exact middleware.httpDownload_pres w req (leiogo.NewResponse req))
  obtain ⟨hurl, href⟩ := hpres
  refine ⟨hurl, href, ?_, ?_⟩ <;>
    simp [href, leiogo.Heap.write, leiogo.Dict.get, leiogo.Dict.set]

/-- Witness for C9: a plain page request against a stub transport returning
an empty 200 response; writing the key "depth" through either reference is
read back through the other. -/
theorem C9_download_alias_witness :
    (⟨none, 200, [], 0, "http://a/"⟩ : leiogo.Response).URL
        = (⟨"http://a/", 0, "parser"⟩ : leiogo.Request).URL
    ∧ (⟨none, 200, [], 0, "http://a/"⟩ : leiogo.Response).MetaRef
        = (⟨"http://a/", 0, "parser"⟩ : leiogo.Request).MetaRef
    ∧ leiogo.Dict.get (leiogo.Heap.write (fun _ => leiogo.Dict.empty) 0 "depth" (.int 1) 0)
        "depth" = some (.int 1)
    ∧ leiogo.Dict.get (leiogo.Heap.write (fun _ => leiogo.Dict.empty) 0 "depth" (.int 1) 0)
        "depth" = some (.int 1) :=
  C9_download_alias (fun _ => leiogo.Dict.empty)
    ⟨fun _ => .page 200 [] none, fun _ => none, fun _ => .ok []⟩
    ⟨"http://a/", 0, "parser"⟩ ⟨none, 200, [], 0, "http://a/"⟩ rfl
    (fun _ => leiogo.Dict.empty) "depth" (.int 1)

namespace leiogo

/-- Reading a key just written through `Dict.set` gives the written value. -/
theorem Dict.get_set_self (d : Dict) (k : String) (v : MetaVal) :
    Dict.get (Dict.set d k v) k = some v := by
  simp [Dict.get, Dict.set, List.find?]

end leiogo

namespace middleware

open leiogo

/-- Embedding of `HttpErrorMiddleware.ProcessResponse`: drop every response
whose status code is not 200.

```go
if res.StatusCode != 200 {
    return &DropTaskError{Message: fmt.Sprintf("[HTTP ERROR] %d", res.StatusCode)}
}
return nil
``` -/
def HttpErrorMiddleware.ProcessResponse (statusCode : Int) : Option GoErr :=
  if statusCode ≠ 200 then some (.dropTask "[HTTP ERROR]") else none

/-- The spider-middleware `ProcessResponse` stage of `Crawler.crawl` for the
default registration order (HttpError before Depth, Depth last): the result
is the response meta as the parser sees it, or `none` when a middleware
dropped the task before the parser (in which case the parser is never called
and the response is never a parent). -/
def spiderResponseStage (m : DepthMiddleware) (statusCode : Int) (resMeta : Dict) :
    Option Dict :=
  match HttpErrorMiddleware.ProcessResponse statusCode with
  | some _ => none
  | none => some (m.ProcessResponse resMeta)

/-- The stable wire contract for the `depth` meta entry: absent or an int.
Every request meta the framework itself creates satisfies it (new requests
start with an empty meta; only the depth middleware writes `depth`, always an
int). -/
def depthIntOK (d : Dict) : Prop :=
  Dict.get d "depth" = none ∨ ∃ n : Int, Dict.get d "depth" = some (.int n)

end middleware

/-- C10: a response that reaches the parser (the only place new requests gain
a parent) has passed `DepthMiddleware.ProcessResponse`, which inserts
`depth = 1` when the key is absent; hence the parent meta always carries an
int under "depth", the unchecked assertion `parentRes.Meta["depth"].(int)` in
`ProcessNewRequest` never panics (the embedding returns `some`), and the
child request meta again carries an int depth — and a freshly created
request meta (empty) satisfies the contract, closing the induction. -/
theorem C10_depth_safety (m : middleware.DepthMiddleware) (statusCode : Int)
    (resMeta parserMeta childMeta : leiogo.Dict)
    (hres : middleware.depthIntOK resMeta)
    (hstage : middleware.spiderResponseStage m statusCode resMeta = some parserMeta) :
    (∃ n : Int, leiogo.Dict.get parserMeta "depth" = some (.int n))
    ∧ (∃ r d2, m.ProcessNewRequest childMeta parserMeta = some (r, d2)
        ∧ ∃ k : Int, leiogo.Dict.get d2 "depth" = some (.int k))
    ∧ middleware.depthIntOK leiogo.Dict.empty := by
  have hdepth : ∃ n : Int, leiogo.Dict.get parserMeta "depth" = some (.int n) := by
    unfold middleware.spiderResponseStage middleware.HttpErrorMiddleware.ProcessResponse
      at hstage
    split at hstage
    · exact Option.noConfusion hstage
    · injection hstage with hstage
      subst hstage
      unfold middleware.DepthMiddleware.ProcessResponse
      rcases hres with hres | ⟨n, hres⟩
      · rw [hres]
        exact ⟨1, leiogo.Dict.get_set_self resMeta "depth" (.int 1)⟩
      · rw [hres]
        exact ⟨n, hres⟩
  obtain ⟨n, hn⟩ := hdepth
  refine ⟨⟨n, hn⟩, ?_, Or.inl rfl⟩
  unfold middleware.DepthMiddleware.ProcessNewRequest
  rw [hn]
  simp only [Option.bind, leiogo.MetaVal.asInt]
  split
  · exact ⟨_, _, rfl, n + 1, leiogo.Dict.get_set_self childMeta "depth" (.int (n + 1))⟩
  · exact ⟨_, _, rfl, n + 1, leiogo.Dict.get_set_self childMeta "depth" (.int (n + 1))⟩

/-- Witness for C10: an empty parent meta (a start URL) with a 200 response
and depth limit 0. -/
theorem C10_depth_safety_witness :
    (∃ n : Int, leiogo.Dict.get [("depth", .int 1)] "depth" = some (.int n))
    ∧ (∃ r d2, middleware.DepthMiddleware.ProcessNewRequest ⟨0⟩ [] [("depth", .int 1)]
        = some (r, d2) ∧ ∃ k : Int, leiogo.Dict.get d2 "depth" = some (.int k))
    ∧ middleware.depthIntOK leiogo.Dict.empty :=
  C10_depth_safety ⟨0⟩ 200 [] [("depth", .int 1)] [] (Or.inl rfl) rfl

namespace middleware

open leiogo

/-- Embedding of `FSWriter.NotExists` (src/middleware/downloader.go).  The
file system is a map from path to the size of the file stored there
(`none` when no file exists):

```go
info, err := os.Stat(filepath)
return os.IsNotExist(err) || info.Size() < 512
``` -/
def FSWriter.NotExists (fs : String → Option Int) (filepath : String) : Bool :=
  match fs filepath with
  | none => true
  | some size => decide (size < 512)

/-- An item as the file pipeline reads it: the optional `fileurls`, `exts`
and `filepath` entries of the untyped item data map. -/
structure Item where
  fileurls : Option (List String)
  exts : Option (List String)
  filepath : Option String

/-- The substring of a URL starting at its last "." (the Go expression
`url[strings.LastIndex(url, "."):]`, which keeps the dot); empty when the
URL has no dot. -/
def lastDotSuffix (url : String) : String :=
  if url.toList.contains '.' then
    String.mk ('.' :: (url.toList.reverse.takeWhile (fun c => c ≠ '.')).reverse)
  else ""

/-- A request emitted by the file pipeline: the file URL and the meta
entries it is tagged with. -/
structure FileRequest where
  url : String
  Meta : Dict
  deriving Repr, DecidableEq

/-- Modelled from the spec: the final `FilePipeline` implementation is
missing from src — `crawler/context.go` (`NewFilePipeline`) constructs a
`middleware.FilePipeline` holding a `FileWriter`, but
src/middleware/itemPipeline.go only contains an older variant (meta keys
`type`/`filepath`, a direct `os.Stat` check, no `exts`).  Per spec §4.7 the
pipeline holds the save directory, the md5 hash collaborator
(`util.MD5Hash`) and the FileWriter collaborator's `not_exists`. -/
structure FilePipeline where
  DirPath : String
  MD5Hash : String → String
  NotExists : String → Bool

/-- Modelled from the spec: the extension of the i-th file URL — `exts[i]`
if provided, else the substring of the URL from its last dot. -/
def FilePipeline.extFor (exts : Option (List String)) (i : Nat) (url : String) : String :=
  match exts with
  | some es =>
    match es.get? i with
    | some e => e
    | none => lastDotSuffix url
  | none => lastDotSuffix url

/-- Modelled from the spec: traverse the file URLs; for each one compute
`filename = md5(url) + ext` under the sub path and, when the target is
missing or too small (`not_exists`), emit a request tagged with
`meta.__type__ = "file"` and `meta.__filepath__ = path`. -/
def FilePipeline.processURLs (p : FilePipeline) (exts : Option (List String))
    (subpath : String) (i : Nat) : List String → List FileRequest
  | [] => []
  | url :: rest =>
    let path := subpath ++ "/" ++ p.MD5Hash url ++ FilePipeline.extFor exts i url
    let tail := p.processURLs exts subpath (i + 1) rest
    if p.NotExists path then
      ⟨url, Dict.set (Dict.set Dict.empty "__type__" (.str "file"))
              "__filepath__" (.str path)⟩ :: tail
    else tail

/-- Modelled from the spec: `FilePipeline.Process` — pass items without
`fileurls` through untouched (no requests), otherwise emit one request per
missing-or-small target under `DirPath` (joined with the optional
`item.filepath` sub directory). -/
def FilePipeline.Process (p : FilePipeline) (item : Item) : List FileRequest :=
  match item.fileurls with
  | none => []
  | some urls =>
    let subpath :=
      match item.filepath with
      | some fp => p.DirPath ++ "/" ++ fp
      | none => p.DirPath
    p.processURLs item.exts subpath 0 urls

/-- With no `exts`, the URL traversal is a `filterMap` over the URLs. -/
theorem processURLs_none_eq (p : FilePipeline) (subpath : String) (urls : List String) :
    ∀ i, p.processURLs none subpath i urls
      = urls.filterMap (fun url =>
          let path := subpath ++ "/" ++ p.MD5Hash url ++ lastDotSuffix url
          if p.NotExists path then
            some ⟨url, [("__filepath__", .str path), ("__type__", .str "file")]⟩
          else none) := by
  induction urls with
  | nil => intro i; rfl
  | cons url rest ih =>
    intro i
    simp only [FilePipeline.processURLs, FilePipeline.extFor, List.filterMap_cons, ih (i + 1)]
    split <;> rfl

end middleware

/-- C2: for an item carrying `fileurls` (without `exts` or a sub directory),
the FilePipeline emits a request exactly for each URL whose target — at path
`dir/md5(url) + ext` with ext the substring of the URL from its last dot —
is missing or smaller than 512 bytes according to `FSWriter.NotExists`, and
that request's meta maps `__type__` to "file" and `__filepath__` to the
computed path; a URL whose target file exists with at least 512 bytes
produces no request. -/
theorem C2_filePipeline (fs : String → Option Int) (dir : String)
    (md5F : String → String) (item : middleware.Item) (urls : List String)
    (bigUrl : String) (bigSize : Int)
    (hurls : item.fileurls = some urls) (hexts : item.exts = none)
    (hfp : item.filepath = none)
    (hbig : fs (dir ++ "/" ++ md5F bigUrl ++ middleware.lastDotSuffix bigUrl) = some bigSize)
    (hsz : 512 ≤ bigSize) :
    middleware.FilePipeline.Process ⟨dir, md5F, middleware.FSWriter.NotExists fs⟩ item
      = urls.filterMap (fun url =>
          let path := dir ++ "/" ++ md5F url ++ middleware.lastDotSuffix url
          if middleware.FSWriter.NotExists fs path then
            some ⟨url, [("__filepath__", .str path), ("__type__", .str "file")]⟩
          else none)
    ∧ List.all
        (middleware.FilePipeline.Process ⟨dir, md5F, middleware.FSWriter.NotExists fs⟩ item)
        (fun r => !(r.url == bigUrl)) = true := by
  have hmain :
      middleware.FilePipeline.Process ⟨dir, md5F, middleware.FSWriter.NotExists fs⟩ item
        = urls.filterMap (fun url =>
            let path := dir ++ "/" ++ md5F url ++ middleware.lastDotSuffix url
            if middleware.FSWriter.NotExists fs path then
              some ⟨url, [("__filepath__", .str path), ("__type__", .str "file")]⟩
            else none) := by
    unfold middleware.FilePipeline.Process
    rw [hurls, hexts, hfp]
    exact middleware.processURLs_none_eq _ _ urls 0
  refine ⟨hmain, ?_⟩
  rw [hmain, List.all_eq_true]
  intro r hr
  rw [List.mem_filterMap] at hr
  obtain ⟨url, hmem, hurl⟩ := hr
  dsimp only at hurl
  have hnotbig : middleware.FSWriter.NotExists fs
      (dir ++ "/" ++ md5F bigUrl ++ middleware.lastDotSuffix bigUrl) = false := by
    unfold middleware.FSWriter.NotExists
    rw [hbig]
    simp only [decide_eq_false_iff_not, not_lt]
    exact hsz
  by_cases hne : url = bigUrl
  · subst hne
    rw [if_neg (by simp [hnotbig])] at hurl
    exact Option.noConfusion hurl
  · split at hurl
    · injection hurl with hurl
      subst hurl
      simp [hne]
    · exact Option.noConfusion hurl

/-- Witness for C2 at a concrete input: two file URLs, the first one's
target already stored with 1000 bytes, the second one missing, so only the
second produces a request. -/
theorem C2_filePipeline_witness :
    middleware.FilePipeline.Process
        ⟨"files", fun _ => "m",
         middleware.FSWriter.NotExists
           (fun p => if p == "files/m.jpg" then some 1000 else none)⟩
        ⟨some ["u.jpg", "v.png"], none, none⟩
      = [⟨"v.png", [("__filepath__", .str "files/m.png"), ("__type__", .str "file")]⟩]
    ∧ List.all
        (middleware.FilePipeline.Process
          ⟨"files", fun _ => "m",
           middleware.FSWriter.NotExists
             (fun p => if p == "files/m.jpg" then some 1000 else none)⟩
          ⟨some ["u.jpg", "v.png"], none, none⟩)
        (fun r => !(r.url == "u.jpg")) = true := by
  have h := C2_filePipeline
    (fun p => if p == "files/m.jpg" then some 1000 else none) "files" (fun _ => "m")
    ⟨some ["u.jpg", "v.png"], none, none⟩ ["u.jpg", "v.png"] "u.jpg" 1000
    rfl rfl rfl (by decide) (by decide)
  exact ⟨h.1.trans (by decide), h.2⟩

/-- C3 counterexample: a request whose parser name is absent from the parser
table still increments `status.succeed` — `AddSucceed` sits after the
`if/else` on the table lookup, so it runs in both branches.  Here the table
is empty, the parser is not called (second component `false`), yet `Succeed`
goes from 0 to 1, contradicting the claim that such a request ends without
incrementing `status.succeed`. -/
theorem C3_counterexample :
    crawler.crawl ⟨[], false, false, [], []⟩ [] "parser" {}
      = ({ Crawled := 1, Succeed := 1 }, false) := by
  decide

/-- C3 amended: when a request's parser name is not in the table, the engine
logs an error and does not call any parser, but it still increments
`status.succeed`; `Succeed` counts every request that passes all response
middlewares, whether or not its parser exists (the parser is invoked exactly
when the name is in the table). -/
theorem C3_succeed_amended (obs : crawler.CrawlObservation)
    (parserTable : List String) (parserName : String) (st : crawler.StatusInfo)
    (h1 : crawler.firstErr obs.preResults = none)
    (h2 : crawler.firstErr obs.dlPostResults = none)
    (h3 : crawler.firstErr obs.spPostResults = none) :
    crawler.crawl obs parserTable parserName st
      = ({ st with Crawled := st.Crawled + 1,
                   Files := st.Files + (if obs.isFileReq && obs.resErrIsDrop then 1 else 0),
                   Succeed := st.Succeed + 1 }, parserTable.contains parserName) := by
  simp only [crawler.crawl, h1, h2, h3, Option.isSome_none]
  cases hf : (obs.isFileReq && obs.resErrIsDrop) <;> simp [hf]

/-- Witness for C3 amended: every middleware passes and the table holds only
the name "other", so the parser "parser" is not called but `Succeed` still
becomes 1. -/
theorem C3_succeed_amended_witness :
    crawler.crawl ⟨[none], false, false, [none], [none]⟩ ["other"] "parser" {}
      = ({ Crawled := 1, Files := 0 + (if false && false then 1 else 0), Succeed := 1 },
         List.contains ["other"] "parser") :=
  C3_succeed_amended ⟨[none], false, false, [none], [none]⟩ ["other"] "parser" {} rfl rfl rfl

